import Mathlib

/-!
Shallow embedding of the docker-healthchecks container state tracker:
health aggregation (container_manager.rs), the retrying and deduplicating
ping dispatcher (healthchecks.rs), docker event classification
(event_handler.rs) and the startup configuration checks (main.rs,
config.rs). Maps and sets of the source are modelled as association
lists and string lists; every operation is an executable function.
-/

namespace DockerHC

/-- Docker container health status, constructors in the declaration order
of the source enum, so that the derived order is
Healthy < Unhealthy < Starting. -/
inductive Health : Type
| Healthy : Health
| Unhealthy : Health
| Starting : Health
deriving DecidableEq, Repr

/-- Rank of a health status under the derived total order of the source:
Healthy < Unhealthy < Starting. -/
def Health.rank : Health → Nat
| Health.Healthy => 0
| Health.Unhealthy => 1
| Health.Starting => 2

/-- Maximum of two health values under the derived order; mirrors the
update-if-strictly-worse rule of the aggregation loop. -/
def Health.maxH (a b : Health) : Health :=
  if Health.rank a < Health.rank b then b else a

/-- Monitored docker container: healthchecks url plus optional health. -/
structure Container where
  ping_url : String
  health : Option Health
deriving DecidableEq, Repr

/-- Lookup in an association list modelling HashMap get. -/
def alookup {α : Type} (k : String) : List (String × α) → Option α
| [] => none
| (k2, v) :: t => if k2 = k then some v else alookup k t

/-- Insert or replace a key in an association list modelling HashMap insert. -/
def ainsert {α : Type} (k : String) (v : α) : List (String × α) → List (String × α)
| [] => [(k, v)]
| (k2, v2) :: t => if k2 = k then (k, v) :: t else (k2, v2) :: ainsert k v t

/-- Remove a key from an association list modelling HashMap remove. -/
def aerase {α : Type} (k : String) (l : List (String × α)) : List (String × α) :=
  l.filter (fun p => p.1 != k)

/-- Update the value at a key in place, modelling HashMap get_mut. -/
def amodify {α : Type} (k : String) (f : α → α) : List (String × α) → List (String × α)
| [] => []
| (k2, v) :: t => if k2 = k then (k2, f v) :: t else (k2, v) :: amodify k f t

/-- Boolean membership in a string list modelling HashSet contains. -/
def smem (k : String) : List String → Bool
| [] => false
| x :: t => if x = k then true else smem k t

/-- Insert into a string list modelling HashSet insert. -/
def sinsert (k : String) (s : List String) : List String :=
  if smem k s then s else k :: s

/-- Remove from a string list modelling HashSet remove. -/
def sremove (k : String) (s : List String) : List String :=
  s.filter (fun u => u != k)

/-- The two collections guarded by the registry lock: monitored containers
keyed by container id, and the set of ignored container ids. -/
structure ManagedContainers where
  monitored_containers : List (String × Container)
  ignored_containers : List String
deriving DecidableEq, Repr

/-- The empty registry created by ContainerManager::new. -/
def emptyRegistry : ManagedContainers := ⟨[], []⟩

/-- One step of the get_status_map loop: default an absent health to
Healthy, then either seed the entry for the ping url or raise it when the
current container is strictly worse. -/
def statusUpdate (status : List (String × Health)) (c : Container) :
    List (String × Health) :=
  let health := c.health.getD Health.Healthy
  match alookup c.ping_url status with
  | some h =>
      if h.rank < health.rank then amodify c.ping_url (fun _ => health) status
      else status
  | none => status ++ [(c.ping_url, health)]

/-- Mapping from ping urls to the worst health status among the monitored
containers sharing the url, as built by get_status_map. -/
def get_status_map (m : ManagedContainers) : List (String × Health) :=
  m.monitored_containers.foldl (fun st p => statusUpdate st p.2) []

/-- Health values, absent defaulting to Healthy, of the monitored
containers carrying a given ping url, in registry order. -/
def healthsFor (m : ManagedContainers) (url : String) : List Health :=
  m.monitored_containers.filterMap
    (fun p => if p.2.ping_url = url then some (p.2.health.getD Health.Healthy) else none)

/-- Aggregated status in the words of the specification: group the
monitored containers by endpoint and fold each group with max under the
Health order; none when no monitored container has the endpoint. -/
def specAggregatedStatus (m : ManagedContainers) (url : String) : Option Health :=
  match healthsFor m url with
  | [] => none
  | h :: t => some (t.foldl Health.maxH h)

/-- Result of ContainerManager::fetch_container for one container id:
inspect failed, no healthchecks.url label, or a container record. -/
inductive FetchResult : Type
| err : FetchResult
| noLabel : FetchResult
| found : Container → FetchResult
deriving DecidableEq, Repr

/-- The ping request issued by ping_one: the url together with its
aggregated status, defaulting to Unhealthy when the url has no monitored
container left. -/
def ping_one (m : ManagedContainers) (url : String) : String × Health :=
  (url, (alookup url (get_status_map m)).getD Health.Unhealthy)

/-- Registry transition of container_started, with the docker inspect
outcome passed explicitly; none models the error return. The second
component lists the ping requests issued. -/
def container_started (m : ManagedContainers) (id : String) (fetched : FetchResult) :
    Option (ManagedContainers × List (String × Health)) :=
  if smem id m.ignored_containers then some (m, [])
  else
    match fetched with
    | FetchResult.err => none
    | FetchResult.found c =>
        let m2 : ManagedContainers :=
          { m with monitored_containers := ainsert id c m.monitored_containers }
        some (m2, [ping_one m2 c.ping_url])
    | FetchResult.noLabel =>
        some ({ m with ignored_containers := sinsert id m.ignored_containers }, [])

/-- Registry transition of container_died. The second component lists the
ping requests issued. -/
def container_died (m : ManagedContainers) (id : String) :
    ManagedContainers × List (String × Health) :=
  if smem id m.ignored_containers then
    ({ m with ignored_containers := sremove id m.ignored_containers }, [])
  else
    match alookup id m.monitored_containers with
    | some c =>
        let m2 : ManagedContainers :=
          { m with monitored_containers := aerase id m.monitored_containers }
        if (alookup c.ping_url (get_status_map m2)).isNone then
          (m2, [(c.ping_url, Health.Unhealthy)])
        else (m2, [])
    | none => (m, [])

/-- Registry transition of container_health_update, with the docker
inspect outcome passed explicitly; none models the error return. -/
def container_health_update (m : ManagedContainers) (id : String) (health : Health)
    (fetched : FetchResult) : Option (ManagedContainers × List (String × Health)) :=
  if smem id m.ignored_containers then some (m, [])
  else
    match alookup id m.monitored_containers with
    | some c =>
        let m2 : ManagedContainers :=
          { m with monitored_containers :=
              amodify id (fun c2 => { c2 with health := some health }) m.monitored_containers }
        some (m2, [ping_one m2 c.ping_url])
    | none =>
        match fetched with
        | FetchResult.err => none
        | FetchResult.found c =>
            let m2 : ManagedContainers :=
              { m with monitored_containers := ainsert id c m.monitored_containers }
            some (m2, [ping_one m2 c.ping_url])
        | FetchResult.noLabel =>
            some ({ m with ignored_containers := sinsert id m.ignored_containers }, [])

/-- One element of the docker container listing; the id is optional as in
the docker API summary type. -/
structure ContainerSummary where
  id : Option String
deriving DecidableEq, Repr

/-- The loop body of fetch_containers: partition the listed containers
into the fresh monitored map and ignored set, aborting on a summary
without id or on an inspect error. -/
def buildSnapshot (inspect : String → FetchResult) :
    List ContainerSummary → List (String × Container) → List String →
    Option ManagedContainers
| [], mon, ign => some ⟨mon, ign⟩
| s :: rest, mon, ign =>
    match s.id with
    | none => none
    | some id =>
        match inspect id with
        | FetchResult.err => none
        | FetchResult.found c => buildSnapshot inspect rest (ainsert id c mon) ign
        | FetchResult.noLabel => buildSnapshot inspect rest mon (sinsert id ign)

/-- fetch_containers with the docker listing and inspect outcomes passed
explicitly: on success the registry is replaced by the fresh snapshot, on
any failure the previous registry is kept and the flag is false. -/
def refreshAll (m : ManagedContainers) (listing : Option (List ContainerSummary))
    (inspect : String → FetchResult) : ManagedContainers × Bool :=
  match listing with
  | none => (m, false)
  | some summaries =>
      match buildSnapshot inspect summaries [] [] with
      | some m2 => (m2, true)
      | none => (m, false)

/-- State of the Healthchecks.io interface: the configured retry count and
the set of ping urls that last received a starting ping. -/
structure Healthchecks where
  ping_retries : Nat
  starting : List String
deriving DecidableEq, Repr

/-- The Healthchecks interface as created at startup: empty dedup set. -/
def Healthchecks.new (ping_retries : Nat) : Healthchecks := ⟨ping_retries, []⟩

/-- Physical target url built from the base url and the health status. -/
def pingTarget (url : String) : Health → String
| Health.Healthy => url
| Health.Unhealthy => url ++ "/fail"
| Health.Starting => url ++ "/start"

/-- Dedup step of Healthchecks::ping: returns the updated dispatcher state
and the physical target of the outbound request, or none when a repeated
starting ping is suppressed. -/
def ping (hc : Healthchecks) (url : String) (health : Health) :
    Healthchecks × Option String :=
  if smem url hc.starting then
    if health = Health.Starting then (hc, none)
    else ({ hc with starting := sremove url hc.starting }, some (pingTarget url health))
  else
    if health = Health.Starting then
      ({ hc with starting := url :: hc.starting }, some (pingTarget url health))
    else (hc, some (pingTarget url health))

/-- Run a sequence of ping calls through the dispatcher, collecting the
url and health of every ping actually sent, in order. -/
def runPings : Healthchecks → List (String × Health) →
    Healthchecks × List (String × Health)
| hc, [] => (hc, [])
| hc, (u, h) :: rest =>
    let step := ping hc u h
    let r := runPings step.1 rest
    (r.1, (match step.2 with | some _ => [(u, h)] | none => []) ++ r.2)

/-- Health of the most recently sent ping for a url in a chronological
log of sent pings. -/
def lastSent (url : String) : List (String × Health) → Option Health
| [] => none
| (u, h) :: t =>
    match lastSent url t with
    | some h2 => some h2
    | none => if u = url then some h else none

/-- Retry loop of Healthchecks::ping, structural on the remaining retry
budget. The outcome of the k-th attempt is given by the oracle (none is
success, some e a failed attempt with error e). Returns the number of
attempts made, the number of inter-attempt sleeps, and the final error if
all attempts failed. -/
def retrySend (oracle : Nat → Option String) (url : String) :
    Nat → Nat → Nat × Nat × Option String
| 0, k =>
    match oracle k with
    | none => (1, 0, none)
    | some e => (1, 0, some ("healthchecks ping to " ++ url ++ " failed: " ++ e))
| fuel + 1, k =>
    match oracle k with
    | none => (1, 0, none)
    | some _ =>
        let r := retrySend oracle url fuel (k + 1)
        (r.1 + 1, r.2.1 + 1, r.2.2)

/-- Full Healthchecks::ping call: the dedup step followed, when a request
goes out, by the retry loop on the physical target. Returns the updated
dispatcher state, the attempt count, the sleep count and the final error. -/
def pingWithSend (hc : Healthchecks) (oracle : Nat → Option String) (url : String)
    (health : Health) : Healthchecks × Nat × Nat × Option String :=
  match ping hc url health with
  | (hc2, none) => (hc2, 0, 0, none)
  | (hc2, some tgt) => (hc2, retrySend oracle tgt hc.ping_retries 0)

/-- Actor of a docker event, with an optional container id. -/
structure EventActor where
  id : Option String
deriving DecidableEq, Repr

/-- A docker event as consumed by the event handler: optional type,
action and actor. -/
structure EventMessage where
  type_ : Option String
  action : Option String
  actor : Option EventActor
deriving DecidableEq, Repr

/-- Registry operation dispatched by the event handler. -/
inductive RegistryCall : Type
| started : String → RegistryCall
| died : String → RegistryCall
| healthUpdate : String → Health → RegistryCall
deriving DecidableEq, Repr

/-- Container id extraction of get_container_id, with the error messages
of the source. -/
def get_container_id (e : EventMessage) : Except String String :=
  match e.actor with
  | none => Except.error "event has no actor"
  | some a =>
      match a.id with
      | none => Except.error "event actor is empty"
      | some id => Except.ok id

/-- Strip a literal character sequence from the front of a character
list; none when the list does not begin with it. -/
def stripFront : List Char → List Char → Option (List Char)
| [], cs => some cs
| _ :: _, [] => none
| p :: ps, c :: cs => if c = p then stripFront ps cs else none

/-- The health_status action pattern check of handle_event: returns the
status text following the literal "health_status: " action marker. -/
def stripHealthStatus (s : String) : Option String :=
  (stripFront "health_status: ".data s.data).map String.mk

/-- Status mapping and dispatch of handle_container_health_status, with
the error message of the source for an unrecognized status; the literal
match of the source is written as a chain of equality tests. -/
def handle_container_health_status (e : EventMessage) (status : String) :
    Except String RegistryCall :=
  match get_container_id e with
  | Except.error msg => Except.error msg
  | Except.ok id =>
      if status = "healthy" then Except.ok (RegistryCall.healthUpdate id Health.Healthy)
      else if status = "unhealthy" then
        Except.ok (RegistryCall.healthUpdate id Health.Unhealthy)
      else if status = "starting" then
        Except.ok (RegistryCall.healthUpdate id Health.Starting)
      else Except.error ("container " ++ id ++ " has invalid health status: " ++ status)

/-- Event classification of handle_event: the registry call dispatched
for the event, none when the event is ignored, or the error raised; the
literal match of the source is written as a chain of equality tests. -/
def handle_event (e : EventMessage) : Except String (Option RegistryCall) :=
  match e.type_, e.action with
  | some t, some action =>
      if t = "container" then
        if action = "start" then
          (get_container_id e).map (fun id => some (RegistryCall.started id))
        else if action = "die" then
          (get_container_id e).map (fun id => some (RegistryCall.died id))
        else
          match stripHealthStatus action with
          | some status => (handle_container_health_status e status).map some
          | none => Except.ok none
      else Except.ok none
  | _, _ => Except.ok none

/-- Configuration values loaded from the environment (durations in
seconds, as in config.rs). -/
structure Config where
  docker_path : String
  ping_interval : Nat
  ping_retries : Nat
  ping_timeout : Nat
  fetch_interval : Nat
  fetch_timeout : Nat
  event_timeout : Nat
deriving DecidableEq, Repr

/-- The default configuration of config.rs. -/
def Config.default : Config :=
  ⟨"/var/run/docker.sock", 60, 5, 50, 600, 300, 60⟩

/-- The startup checks of main.rs: the two ensure calls on ping_interval
and fetch_interval. -/
def validate_config (c : Config) : Bool :=
  decide (1 ≤ c.ping_interval) && decide (1 ≤ c.fetch_interval)

/-- One registry operation together with the docker daemon responses it
observes, so that a whole event history is a list of operations. -/
inductive Op : Type
| refresh : Option (List ContainerSummary) → (String → FetchResult) → Op
| started : String → FetchResult → Op
| died : String → Op
| healthUpdate : String → Health → FetchResult → Op

/-- Registry state reached after one operation; an operation that returns
an error leaves the registry unchanged. -/
def step (m : ManagedContainers) : Op → ManagedContainers
| Op.refresh listing inspect => (refreshAll m listing inspect).1
| Op.started id f =>
    match container_started m id f with
    | some r => r.1
    | none => m
| Op.died id => (container_died m id).1
| Op.healthUpdate id h f =>
    match container_health_update m id h f with
    | some r => r.1
    | none => m

/-- Registry state reached after a sequence of operations. -/
def runOps (m : ManagedContainers) (ops : List Op) : ManagedContainers :=
  ops.foldl step m

/-- A fetch outcome is consistent with a fixed label assignment when it
reports a label exactly for the ids that carry one. Docker guarantees
this: labels cannot be added to or removed from an existing container. -/
def FetchResult.consistent (hasLabel : String → Bool) (id : String) :
    FetchResult → Prop
| FetchResult.err => True
| FetchResult.noLabel => hasLabel id = false
| FetchResult.found _ => hasLabel id = true

/-- An operation is consistent with a fixed label assignment when every
inspect outcome it observes is. -/
def Op.consistent (hasLabel : String → Bool) : Op → Prop
| Op.refresh _ inspect => ∀ id, FetchResult.consistent hasLabel id (inspect id)
| Op.started id f => FetchResult.consistent hasLabel id f
| Op.died _ => True
| Op.healthUpdate id _ f => FetchResult.consistent hasLabel id f

/-- Auxiliary invariant: monitored ids carry the label, ignored ids do
not; this forces the two collections to be disjoint. -/
def labelled (hasLabel : String → Bool) (m : ManagedContainers) : Prop :=
  (∀ p ∈ m.monitored_containers, hasLabel p.1 = true) ∧
  (∀ id ∈ m.ignored_containers, hasLabel id = false)

/-- Combine an optional current group status with one more health value:
seed when absent, otherwise take the maximum. -/
def optMax (o : Option Health) (h : Health) : Option Health :=
  match o with
  | none => some h
  | some h0 => some (Health.maxH h0 h)

theorem smem_iff {k : String} : ∀ {l : List String}, smem k l = true ↔ k ∈ l
| [] => by simp [smem]
| x :: t => by
    by_cases hx : x = k
    · subst hx; simp [smem]
    · simp only [smem, if_neg hx, List.mem_cons]
      rw [smem_iff]
      constructor
      · exact Or.inr
      · rintro (h | h)
        · exact absurd h.symm hx
        · exact h

theorem alookup_mem {α : Type} {k : String} {v : α} :
    ∀ {l : List (String × α)}, alookup k l = some v → (k, v) ∈ l
| [], h => by simp [alookup] at h
| (k2, v2) :: t, h => by
    by_cases hk : k2 = k
    · subst hk
      have h2 : v2 = v := by simpa [alookup] using h
      subst h2
      exact List.mem_cons_self _ _
    · simp only [alookup, if_neg hk] at h
      exact List.mem_cons_of_mem _ (alookup_mem h)

theorem alookup_amodify {α : Type} (k u : String) (f : α → α) :
    ∀ (l : List (String × α)),
      alookup u (amodify k f l) =
        if k = u then (alookup u l).map f else alookup u l
| [] => by simp [alookup, amodify]
| (k2, v) :: t => by
    by_cases hk : k2 = k
    · subst hk
      by_cases hu : k2 = u
      · subst hu; simp [amodify, alookup]
      · simp [amodify, alookup, if_neg hu, alookup_amodify k2 u f t]
    · simp only [amodify, if_neg hk]
      by_cases hu : k2 = u
      · subst hu
        have hku : ¬(k = k2) := fun h => hk h.symm
        simp [alookup, if_neg hku]
      · simp [alookup, if_neg hu, alookup_amodify k u f t]

theorem alookup_append_single {α : Type} (u k : String) (h : α) :
    ∀ (l : List (String × α)),
      alookup u (l ++ [(k, h)]) =
        match alookup u l with
        | some x => some x
        | none => if k = u then some h else none
| [] => by simp [alookup]
| (k2, v) :: t => by
    by_cases hu : k2 = u
    · subst hu; simp [alookup]
    · simp [alookup, if_neg hu, alookup_append_single u k h t]

theorem alookup_statusUpdate (u : String) (st : List (String × Health)) (c : Container) :
    alookup u (statusUpdate st c) =
      if c.ping_url = u then optMax (alookup u st) (c.health.getD Health.Healthy)
      else alookup u st := by
  unfold statusUpdate
  cases hst : alookup c.ping_url st with
  | some h =>
      by_cases hlt : h.rank < (c.health.getD Health.Healthy).rank
      · simp only [hlt, if_true]
        rw [alookup_amodify]
        by_cases hu : c.ping_url = u
        · subst hu
          simp [hst, optMax, Health.maxH, hlt]
        · simp [if_neg hu]
      · simp only [hlt, if_false]
        by_cases hu : c.ping_url = u
        · subst hu
          simp [hst, optMax, Health.maxH, hlt]
        · simp [if_neg hu]
  | none =>
      rw [alookup_append_single]
      by_cases hu : c.ping_url = u
      · subst hu
        simp [hst, optMax]
      · cases hx : alookup u st with
        | none => simp [hx, if_neg hu]
        | some x => simp [hx, if_neg hu]

theorem alookup_statusFold (u : String) :
    ∀ (cs : List (String × Container)) (acc : List (String × Health)),
      alookup u (cs.foldl (fun st p => statusUpdate st p.2) acc) =
        (cs.filterMap (fun p =>
            if p.2.ping_url = u then some (p.2.health.getD Health.Healthy) else none)).foldl
          optMax (alookup u acc)
| [], acc => by simp
| (k, c) :: t, acc => by
    simp only [List.foldl_cons, List.filterMap_cons]
    rw [alookup_statusFold u t (statusUpdate acc c)]
    by_cases hu : c.ping_url = u
    · simp [hu, alookup_statusUpdate]
    · simp [hu, alookup_statusUpdate]

theorem foldl_optMax_some (a : Health) :
    ∀ (t : List Health), t.foldl optMax (some a) = some (t.foldl Health.maxH a)
| [] => rfl
| h :: t => by
    simp only [List.foldl_cons]
    exact foldl_optMax_some (Health.maxH a h) t

theorem alookup_get_status_map (m : ManagedContainers) (u : String) :
    alookup u (get_status_map m) = specAggregatedStatus m u := by
  unfold get_status_map specAggregatedStatus
  rw [alookup_statusFold u m.monitored_containers []]
  show (healthsFor m u).foldl optMax (alookup u []) = _
  cases hh : healthsFor m u with
  | nil => simp [alookup]
  | cons h t =>
      simp only [alookup, List.foldl_cons]
      exact foldl_optMax_some h t

theorem healthsFor_eq_nil_iff (m : ManagedContainers) (u : String) :
    healthsFor m u = [] ↔ ∀ p ∈ m.monitored_containers, p.2.ping_url ≠ u := by
  unfold healthsFor
  rw [List.filterMap_eq_nil_iff]
  constructor
  · intro h p hp hurl
    have := h p hp
    simp [hurl] at this
  · intro h p hp
    simp [h p hp]

theorem specAggregatedStatus_isSome_iff (m : ManagedContainers) (u : String) :
    (specAggregatedStatus m u).isSome = true ↔
      ∃ p ∈ m.monitored_containers, p.2.ping_url = u := by
  unfold specAggregatedStatus
  cases hh : healthsFor m u with
  | nil =>
      simp only [Option.isSome_none, Bool.false_eq_true, false_iff]
      rw [healthsFor_eq_nil_iff] at hh
      rintro ⟨p, hp, hurl⟩
      exact hh p hp hurl
  | cons h t =>
      simp only [Option.isSome_some, true_iff]
      have : healthsFor m u ≠ [] := by rw [hh]; simp
      rw [ne_eq, healthsFor_eq_nil_iff] at this
      push_neg at this
      exact this

/-- C1: get_status_map agrees with the reference aggregation: for every
registry state and endpoint, the looked-up value is the maximum health,
absent defaulting to Healthy, of the monitored containers grouped on that
endpoint under the order Healthy < Unhealthy < Starting, and the map
holds exactly the endpoints of monitored containers. -/
theorem get_status_map_refines_spec (m : ManagedContainers) (url : String) :
    alookup url (get_status_map m) = specAggregatedStatus m url ∧
    ((alookup url (get_status_map m)).isSome = true ↔
      ∃ p ∈ m.monitored_containers, p.2.ping_url = url) := by
  refine ⟨alookup_get_status_map m url, ?_⟩
  rw [alookup_get_status_map m url]
  exact specAggregatedStatus_isSome_iff m url

theorem status_map_isNone_iff (m : ManagedContainers) (u : String) :
    (alookup u (get_status_map m)).isNone = true ↔
      ∀ p ∈ m.monitored_containers, p.2.ping_url ≠ u := by
  rw [Option.isNone_iff_eq_none, alookup_get_status_map m u]
  unfold specAggregatedStatus
  cases hh : healthsFor m u with
  | nil =>
      simp only [true_iff]
      rw [healthsFor_eq_nil_iff] at hh
      exact hh
  | cons h t =>
      constructor
      · intro hfalse
        exact absurd hfalse (by simp)
      · intro hall
        have : healthsFor m u = [] := (healthsFor_eq_nil_iff m u).mpr hall
        rw [hh] at this
        exact absurd this (by simp)

/-- C2: container_died removes an ignored id silently; for a monitored
id it removes the record and issues exactly one Unhealthy ping request
for its endpoint precisely when no remaining monitored container still
carries that endpoint, and no ping at all otherwise. -/
theorem container_died_spec (m : ManagedContainers) (id : String) :
    (smem id m.ignored_containers = true →
      container_died m id =
        ({ m with ignored_containers := sremove id m.ignored_containers }, [])) ∧
    (smem id m.ignored_containers = false →
      ∀ c, alookup id m.monitored_containers = some c →
        (container_died m id).1 =
          { m with monitored_containers := aerase id m.monitored_containers } ∧
        ((∀ p ∈ aerase id m.monitored_containers, p.2.ping_url ≠ c.ping_url) →
          (container_died m id).2 = [(c.ping_url, Health.Unhealthy)]) ∧
        ((∃ p ∈ aerase id m.monitored_containers, p.2.ping_url = c.ping_url) →
          (container_died m id).2 = [])) := by
  constructor
  · intro hig
    unfold container_died
    simp [hig]
  · intro hig c hc
    unfold container_died
    simp only [hig, Bool.false_eq_true, if_false, hc]
    set m2 : ManagedContainers :=
      { m with monitored_containers := aerase id m.monitored_containers } with hm2
    refine ⟨?_, ?_, ?_⟩
    · by_cases hnone : (alookup c.ping_url (get_status_map m2)).isNone
      · simp [hnone]
      · simp [hnone]
    · intro hno
      have : (alookup c.ping_url (get_status_map m2)).isNone = true :=
        (status_map_isNone_iff m2 c.ping_url).mpr hno
      simp [this]
    · rintro ⟨p, hp, hurl⟩
      have : ¬((alookup c.ping_url (get_status_map m2)).isNone = true) := by
        rw [status_map_isNone_iff m2 c.ping_url]
        push_neg
        exact ⟨p, hp, hurl⟩
      simp [this]

theorem container_died_spec_witness :
    (container_died
        ⟨[("a", ⟨"E", some Health.Healthy⟩), ("b", ⟨"E", some Health.Unhealthy⟩)], []⟩
        "b").2 = [] := by
  have h :=
    (container_died_spec
        ⟨[("a", ⟨"E", some Health.Healthy⟩), ("b", ⟨"E", some Health.Unhealthy⟩)], []⟩
        "b").2 (by decide) ⟨"E", some Health.Unhealthy⟩ (by decide)
  exact h.2.2 (by decide)

/-- C10: container_died on an id that is neither monitored nor ignored
returns success, issues no ping and leaves the registry unchanged; in
particular feeding its empty ping list through the dispatcher leaves the
dedup set untouched. -/
theorem container_died_unknown_id (m : ManagedContainers) (id : String)
    (h1 : smem id m.ignored_containers = false)
    (h2 : alookup id m.monitored_containers = none) :
    container_died m id = (m, []) ∧
    ∀ hc : Healthchecks, runPings hc (container_died m id).2 = (hc, []) := by
  have hmain : container_died m id = (m, []) := by
    unfold container_died
    simp [h1, h2]
  refine ⟨hmain, ?_⟩
  intro hc
  rw [hmain]
  rfl

theorem container_died_unknown_id_witness :
    container_died ⟨[("a", ⟨"E", none⟩)], ["b"]⟩ "c" = (⟨[("a", ⟨"E", none⟩)], ["b"]⟩, []) :=
  (container_died_unknown_id ⟨[("a", ⟨"E", none⟩)], ["b"]⟩ "c" (by decide) (by decide)).1

theorem smem_sremove {u v : String} {l : List String} :
    smem u (sremove v l) = true ↔ smem u l = true ∧ u ≠ v := by
  simp only [smem_iff, sremove, List.mem_filter, bne_iff_ne, ne_eq]

theorem smem_sremove_self (u : String) (l : List String) :
    smem u (sremove u l) = false := by
  cases h : smem u (sremove u l) with
  | false => rfl
  | true => exact absurd (smem_sremove.mp h).2 (by simp)

theorem smem_sremove_ne {u v : String} (h : u ≠ v) (l : List String) :
    smem u (sremove v l) = smem u l := by
  cases h1 : smem u l with
  | true => exact smem_sremove.mpr ⟨h1, h⟩
  | false =>
      cases h2 : smem u (sremove v l) with
      | false => rfl
      | true =>
          have := (smem_sremove.mp h2).1
          rw [h1] at this
          exact absurd this (by simp)

theorem sremove_of_not_smem {u : String} :
    ∀ {l : List String}, smem u l = false → sremove u l = l
| [], _ => rfl
| x :: t, h => by
    by_cases hx : x = u
    · subst hx; simp [smem] at h
    · have ht : smem u t = false := by simpa [smem, hx] using h
      have hb : (x != u) = true := by simp [hx]
      show List.filter _ (x :: t) = x :: t
      simp only [List.filter_cons, hb, if_true]
      exact congrArg (x :: ·) (sremove_of_not_smem ht)

theorem smem_cons (u x : String) (t : List String) :
    smem u (x :: t) = if x = u then true else smem u t := rfl

theorem runPings_cons (hc : Healthchecks) (u0 : String) (h0 : Health)
    (rest : List (String × Health)) :
    runPings hc ((u0, h0) :: rest) =
      ((runPings (ping hc u0 h0).1 rest).1,
       (match (ping hc u0 h0).2 with | some _ => [(u0, h0)] | none => []) ++
         (runPings (ping hc u0 h0).1 rest).2) := rfl

/-- C3: the dedup and target construction of Healthchecks::ping: a
starting ping for a url already in the dedup set is suppressed with the
set unchanged; every other call updates the set (insert on starting,
remove otherwise) and attempts a POST to the base url, url/fail or
url/start respectively; hence of two consecutive starting pings only the
first goes out, a following healthy ping goes out, and a starting ping
after that goes out again. -/
theorem ping_dedup_spec (hc : Healthchecks) (url : String) (health : Health) :
    (smem url hc.starting = true → health = Health.Starting →
      ping hc url health = (hc, none)) ∧
    (smem url hc.starting = true → health ≠ Health.Starting →
      ping hc url health =
        ({ hc with starting := sremove url hc.starting }, some (pingTarget url health))) ∧
    (smem url hc.starting = false → health = Health.Starting →
      ping hc url health =
        ({ hc with starting := url :: hc.starting }, some (pingTarget url Health.Starting))) ∧
    (smem url hc.starting = false → health ≠ Health.Starting →
      ping hc url health = (hc, some (pingTarget url health))) ∧
    (pingTarget url Health.Healthy = url ∧
     pingTarget url Health.Unhealthy = url ++ "/fail" ∧
     pingTarget url Health.Starting = url ++ "/start") ∧
    (smem url hc.starting = false →
      (runPings hc [(url, Health.Starting), (url, Health.Starting),
                    (url, Health.Healthy), (url, Health.Starting)]).2 =
        [(url, Health.Starting), (url, Health.Healthy), (url, Health.Starting)]) := by
  refine ⟨?_, ?_, ?_, ?_, ⟨rfl, rfl, rfl⟩, ?_⟩
  · intro hm hh; subst hh; simp [ping, hm]
  · intro hm hh; simp [ping, hm, hh]
  · intro hm hh; subst hh; simp [ping, hm]
  · intro hm hh; simp [ping, hm, hh]
  · intro hfresh
    have p1 : ping hc url Health.Starting =
        ({ hc with starting := url :: hc.starting }, some (pingTarget url Health.Starting)) := by
      simp [ping, hfresh]
    have hs2 : smem url (url :: hc.starting) = true := by simp [smem]
    have p2 : ping { hc with starting := url :: hc.starting } url Health.Starting =
        ({ hc with starting := url :: hc.starting }, none) := by
      simp [ping, hs2]
    have hrem : sremove url (url :: hc.starting) = hc.starting := by
      show List.filter _ (url :: hc.starting) = hc.starting
      simp only [List.filter_cons, bne_self_eq_false, if_false]
      exact sremove_of_not_smem hfresh
    have p3 : ping { hc with starting := url :: hc.starting } url Health.Healthy =
        ({ hc with starting := hc.starting }, some (pingTarget url Health.Healthy)) := by
      simp [ping, hs2, hrem]
    have p4 : ping { hc with starting := hc.starting } url Health.Starting =
        ({ hc with starting := url :: hc.starting }, some (pingTarget url Health.Starting)) := by
      simp [ping, hfresh]
    rw [runPings_cons, p1]
    rw [runPings_cons, p2]
    rw [runPings_cons, p3]
    rw [runPings_cons, p4]
    rfl

theorem ping_dedup_spec_witness :
    (runPings (Healthchecks.new 0) [("u", Health.Starting), ("u", Health.Starting),
        ("u", Health.Healthy), ("u", Health.Starting)]).2 =
      [("u", Health.Starting), ("u", Health.Healthy), ("u", Health.Starting)] :=
  (ping_dedup_spec (Healthchecks.new 0) "u" Health.Starting).2.2.2.2.2 (by decide)

theorem lastSent_append (u : String) :
    ∀ (l1 l2 : List (String × Health)),
      lastSent u (l1 ++ l2) =
        match lastSent u l2 with
        | some h => some h
        | none => lastSent u l1
| [], l2 => by
    cases h : lastSent u l2 with
    | some x => simp [h]
    | none => simp [h, lastSent]
| (v, h) :: t, l2 => by
    show (match lastSent u (t ++ l2) with
          | some h2 => some h2
          | none => if v = u then some h else none) = _
    rw [lastSent_append u t l2]
    cases h2 : lastSent u l2 with
    | some x => simp
    | none =>
        cases h3 : lastSent u t with
        | some y => simp [lastSent, h3]
        | none => simp [lastSent, h3]

theorem runPings_starting_inv :
    ∀ (calls : List (String × Health)) (hc : Healthchecks) (u : String),
      smem u (runPings hc calls).1.starting = true ↔
        (lastSent u (runPings hc calls).2 = some Health.Starting ∨
         (lastSent u (runPings hc calls).2 = none ∧ smem u hc.starting = true))
| [], hc, u => by simp [runPings, lastSent]
| (u0, h0) :: rest, hc, u => by
    rw [runPings_cons]
    by_cases hm : smem u0 hc.starting = true
    · by_cases hh : h0 = Health.Starting
      · subst hh
        have hp : ping hc u0 Health.Starting = (hc, none) := by simp [ping, hm]
        rw [hp]
        simpa using runPings_starting_inv rest hc u
      · have hp : ping hc u0 h0 =
            ({ hc with starting := sremove u0 hc.starting }, some (pingTarget u0 h0)) := by
          simp [ping, hm, hh]
        rw [hp]
        simp only
        rw [runPings_starting_inv rest { hc with starting := sremove u0 hc.starting } u]
        rw [lastSent_append]
        cases hl : lastSent u (runPings { hc with starting := sremove u0 hc.starting } rest).2 with
        | some x => simp
        | none =>
            by_cases hu : u0 = u
            · subst hu
              simp [lastSent, smem_sremove_self, hh]
            · have hne : u ≠ u0 := fun hx => hu hx.symm
              simp [lastSent, if_neg hu, smem_sremove_ne hne]
    · have hm2 : smem u0 hc.starting = false := by
        cases h : smem u0 hc.starting with
        | false => rfl
        | true => exact absurd h hm
      by_cases hh : h0 = Health.Starting
      · subst hh
        have hp : ping hc u0 Health.Starting =
            ({ hc with starting := u0 :: hc.starting },
             some (pingTarget u0 Health.Starting)) := by
          simp [ping, hm2]
        rw [hp]
        simp only
        rw [runPings_starting_inv rest { hc with starting := u0 :: hc.starting } u]
        rw [lastSent_append]
        cases hl : lastSent u (runPings { hc with starting := u0 :: hc.starting } rest).2 with
        | some x => simp
        | none =>
            by_cases hu : u0 = u
            · subst hu
              simp [lastSent, smem_cons]
            · simp [lastSent, if_neg hu, smem_cons, hu]
      · have hp : ping hc u0 h0 = (hc, some (pingTarget u0 h0)) := by
          simp [ping, hm2, hh]
        rw [hp]
        simp only
        rw [runPings_starting_inv rest hc u]
        rw [lastSent_append]
        cases hl : lastSent u (runPings hc rest).2 with
        | some x => simp
        | none =>
            by_cases hu : u0 = u
            · subst hu
              simp [lastSent, hh, hm2]
            · simp [lastSent, if_neg hu]

/-- C7: after any sequence of ping calls starting from the freshly
created dispatcher, the dedup set contains exactly the urls whose most
recently sent ping was Starting: a url leaves the set on sending a
non-starting ping and re-enters only on sending a starting ping. -/
theorem dedup_set_tracks_last_sent (R : Nat) (calls : List (String × Health))
    (url : String) :
    smem url (runPings (Healthchecks.new R) calls).1.starting = true ↔
      lastSent url (runPings (Healthchecks.new R) calls).2 = some Health.Starting := by
  rw [runPings_starting_inv calls (Healthchecks.new R) url]
  simp [Healthchecks.new, smem]

theorem retrySend_all_fail (oracle : Nat → Option String) (errs : Nat → String)
    (hfail : ∀ j, oracle j = some (errs j)) (url : String) :
    ∀ (fuel k : Nat),
      retrySend oracle url fuel k =
        (fuel + 1, fuel,
         some ("healthchecks ping to " ++ url ++ " failed: " ++ errs (k + fuel)))
| 0, k => by simp [retrySend, hfail k]
| fuel + 1, k => by
    simp only [retrySend, hfail k]
    rw [retrySend_all_fail oracle errs hfail url fuel (k + 1)]
    have hk : k + 1 + fuel = k + (fuel + 1) := by omega
    simp [hk]

theorem retrySend_first_success (oracle : Nat → Option String) (url : String) :
    ∀ (i fuel k : Nat), i ≤ fuel → oracle (k + i) = none →
      (∀ j, j < i → oracle (k + j) ≠ none) →
      retrySend oracle url fuel k = (i + 1, i, none)
| 0, fuel, k, _, hsucc, _ => by
    have hk : oracle k = none := by simpa using hsucc
    cases fuel with
    | zero => simp [retrySend, hk]
    | succ f => simp [retrySend, hk]
| i + 1, fuel, k, hle, hsucc, hj => by
    have h0 : oracle k ≠ none := by
      have := hj 0 (Nat.succ_pos i)
      simpa using this
    obtain ⟨e, he⟩ : ∃ e, oracle k = some e := by
      cases hx : oracle k with
      | none => exact absurd hx h0
      | some e => exact ⟨e, rfl⟩
    cases fuel with
    | zero => omega
    | succ f =>
        simp only [retrySend, he]
        have hle2 : i ≤ f := Nat.lt_succ_iff.mp hle
        have hsucc2 : oracle (k + 1 + i) = none := by
          have hk : k + 1 + i = k + (i + 1) := by omega
          rw [hk]; exact hsucc
        have hj2 : ∀ j, j < i → oracle (k + 1 + j) ≠ none := by
          intro j hji
          have hk : k + 1 + j = k + (j + 1) := by omega
          rw [hk]
          exact hj (j + 1) (Nat.succ_lt_succ hji)
        rw [retrySend_first_success oracle url i f (k + 1) hle2 hsucc2 hj2]

theorem ping_sends_of_not_dedup (hc : Healthchecks) (url : String) (health : Health)
    (hnd : ¬(smem url hc.starting = true ∧ health = Health.Starting)) :
    (ping hc url health).2 = some (pingTarget url health) := by
  unfold ping
  by_cases hm : smem url hc.starting = true
  · have hh : ¬(health = Health.Starting) := fun hx => hnd ⟨hm, hx⟩
    simp [hm, hh]
  · have hm2 : smem url hc.starting = false := by
      cases h : smem url hc.starting with
      | false => rfl
      | true => exact absurd h hm
    by_cases hh : health = Health.Starting
    · simp [hm2, hh]
    · simp [hm2, hh]

/-- C4: a non-suppressed ping call with retry count R whose attempts all
fail makes exactly R+1 attempts separated by R inter-attempt sleeps and
returns the failure message naming the target and carrying the last
underlying error; when the attempt with zero-based index k ≤ R is the
first success, exactly k+1 attempts are made and the call succeeds. -/
theorem ping_retry_spec (hc : Healthchecks) (oracle : Nat → Option String)
    (url : String) (health : Health)
    (hnd : ¬(smem url hc.starting = true ∧ health = Health.Starting)) :
    (∀ errs : Nat → String, (∀ j, oracle j = some (errs j)) →
      pingWithSend hc oracle url health =
        ((ping hc url health).1, hc.ping_retries + 1, hc.ping_retries,
         some ("healthchecks ping to " ++ pingTarget url health ++ " failed: " ++
           errs hc.ping_retries))) ∧
    (∀ k, k ≤ hc.ping_retries → oracle k = none → (∀ j, j < k → oracle j ≠ none) →
      pingWithSend hc oracle url health = ((ping hc url health).1, k + 1, k, none)) := by
  have hp : ping hc url health = ((ping hc url health).1, some (pingTarget url health)) := by
    have := ping_sends_of_not_dedup hc url health hnd
    exact Prod.ext rfl this
  constructor
  · intro errs hfail
    unfold pingWithSend
    rw [hp]
    show ((ping hc url health).1,
        retrySend oracle (pingTarget url health) hc.ping_retries 0) = _
    rw [retrySend_all_fail oracle errs hfail (pingTarget url health) hc.ping_retries 0]
    simp
  · intro k hk hsucc hj
    unfold pingWithSend
    rw [hp]
    have hsucc2 : oracle (0 + k) = none := by simpa using hsucc
    have hj2 : ∀ j, j < k → oracle (0 + j) ≠ none := by
      intro j hji
      simpa using hj j hji
    show ((ping hc url health).1,
        retrySend oracle (pingTarget url health) hc.ping_retries 0) = _
    rw [retrySend_first_success oracle (pingTarget url health) k hc.ping_retries 0 hk
      hsucc2 hj2]

theorem ping_retry_spec_witness :
    pingWithSend (Healthchecks.new 2) (fun _ => some "boom") "u" Health.Healthy =
      (Healthchecks.new 2, 3, 2, some "healthchecks ping to u failed: boom") := by
  have h := (ping_retry_spec (Healthchecks.new 2) (fun _ => some "boom") "u"
      Health.Healthy (by decide)).1 (fun _ => "boom") (fun _ => rfl)
  exact h.trans (by decide)

theorem buildSnapshot_eq_none_iff (inspect : String → FetchResult) :
    ∀ (ss : List ContainerSummary) (mon : List (String × Container)) (ign : List String),
      buildSnapshot inspect ss mon ign = none ↔
        ∃ s ∈ ss, s.id = none ∨ ∃ id, s.id = some id ∧ inspect id = FetchResult.err
| [], mon, ign => by simp [buildSnapshot]
| s :: rest, mon, ign => by
    cases hid : s.id with
    | none =>
        simp only [buildSnapshot, hid]
        constructor
        · intro _
          exact ⟨s, List.mem_cons_self _ _, Or.inl hid⟩
        · intro _
          trivial
    | some id =>
        cases hins : inspect id with
        | err =>
            simp only [buildSnapshot, hid, hins]
            constructor
            · intro _
              exact ⟨s, List.mem_cons_self _ _, Or.inr ⟨id, hid, hins⟩⟩
            · intro _
              trivial
        | found c =>
            simp only [buildSnapshot, hid, hins]
            rw [buildSnapshot_eq_none_iff inspect rest (ainsert id c mon) ign]
            constructor
            · rintro ⟨s2, hs2, hbad⟩
              exact ⟨s2, List.mem_cons_of_mem _ hs2, hbad⟩
            · rintro ⟨s2, hs2, hbad⟩
              rcases List.mem_cons.mp hs2 with heq | hmem
              · subst heq
                rcases hbad with hb | ⟨id2, hid2, hins2⟩
                · rw [hid] at hb; exact absurd hb (by simp)
                · rw [hid] at hid2
                  have : id = id2 := by injection hid2
                  subst this
                  rw [hins] at hins2
                  exact absurd hins2 (by simp)
              · exact ⟨s2, hmem, hbad⟩
        | noLabel =>
            simp only [buildSnapshot, hid, hins]
            rw [buildSnapshot_eq_none_iff inspect rest mon (sinsert id ign)]
            constructor
            · rintro ⟨s2, hs2, hbad⟩
              exact ⟨s2, List.mem_cons_of_mem _ hs2, hbad⟩
            · rintro ⟨s2, hs2, hbad⟩
              rcases List.mem_cons.mp hs2 with heq | hmem
              · subst heq
                rcases hbad with hb | ⟨id2, hid2, hins2⟩
                · rw [hid] at hb; exact absurd hb (by simp)
                · rw [hid] at hid2
                  have : id = id2 := by injection hid2
                  subst this
                  rw [hins] at hins2
                  exact absurd hins2 (by simp)
              · exact ⟨s2, hmem, hbad⟩

/-- C5: fetch_containers is atomic on error: the refresh fails exactly
when the listing fails, a summary lacks an id, or an inspect fails, and
on failure the registry is exactly what it was before; on success the
registry is wholly replaced by the snapshot built from the listing. -/
theorem refreshAll_atomic (m : ManagedContainers)
    (listing : Option (List ContainerSummary)) (inspect : String → FetchResult) :
    ((refreshAll m listing inspect).2 = false ↔
      (listing = none ∨ ∃ ss, listing = some ss ∧ ∃ s ∈ ss,
        s.id = none ∨ ∃ id, s.id = some id ∧ inspect id = FetchResult.err)) ∧
    ((refreshAll m listing inspect).2 = false → (refreshAll m listing inspect).1 = m) ∧
    (∀ ss, listing = some ss → (refreshAll m listing inspect).2 = true →
      some (refreshAll m listing inspect).1 = buildSnapshot inspect ss [] []) := by
  cases listing with
  | none =>
      refine ⟨?_, ?_, ?_⟩
      · simp [refreshAll]
      · intro _; rfl
      · intro ss hss; exact absurd hss (by simp)
  | some ss =>
      cases hb : buildSnapshot inspect ss [] [] with
      | some m2 =>
          have hflag : refreshAll m (some ss) inspect = (m2, true) := by
            simp [refreshAll, hb]
          refine ⟨?_, ?_, ?_⟩
          · rw [hflag]
            simp only [Bool.true_eq_false, false_iff]
            rintro (hnone | ⟨ss2, hss2, hbad⟩)
            · exact absurd hnone (by simp)
            · have : ss2 = ss := by injection hss2.symm
              subst this
              have : buildSnapshot inspect ss2 [] [] = none :=
                (buildSnapshot_eq_none_iff inspect ss2 [] []).mpr hbad
              rw [hb] at this
              exact absurd this (by simp)
          · rw [hflag]
            intro h
            exact absurd h (by simp)
          · intro ss2 hss2 _
            have h2 : ss = ss2 := by injection hss2
            subst h2
            rw [hflag, hb]
      | none =>
          have hflag : refreshAll m (some ss) inspect = (m, false) := by
            simp [refreshAll, hb]
          refine ⟨?_, ?_, ?_⟩
          · rw [hflag]
            simp only [true_iff]
            exact Or.inr ⟨ss, rfl, (buildSnapshot_eq_none_iff inspect ss [] []).mp hb⟩
          · intro _; rw [hflag]
          · intro ss2 hss2 htrue
            rw [hflag] at htrue
            exact absurd htrue (by simp)

theorem refreshAll_atomic_witness :
    (refreshAll ⟨[("a", ⟨"E", none⟩)], []⟩ (some [⟨none⟩]) (fun _ => FetchResult.err)).1 =
      ⟨[("a", ⟨"E", none⟩)], []⟩ :=
  (refreshAll_atomic ⟨[("a", ⟨"E", none⟩)], []⟩ (some [⟨none⟩])
      (fun _ => FetchResult.err)).2.1 (by decide)

theorem mem_ainsert {α : Type} {k : String} {v : α} {p : String × α} :
    ∀ {l : List (String × α)}, p ∈ ainsert k v l → p = (k, v) ∨ p ∈ l
| [], h => by simpa [ainsert] using h
| (k2, v2) :: t, h => by
    by_cases hk : k2 = k
    · subst hk
      simp only [ainsert, eq_self_iff_true, ite_true, List.mem_cons] at h
      rcases h with h1 | h1
      · exact Or.inl h1
      · exact Or.inr (List.mem_cons_of_mem _ h1)
    · simp only [ainsert, if_neg hk, List.mem_cons] at h
      rcases h with h1 | h1
      · exact Or.inr (by simp [h1])
      · rcases mem_ainsert h1 with h2 | h2
        · exact Or.inl h2
        · exact Or.inr (List.mem_cons_of_mem _ h2)

theorem mem_amodify {α : Type} {k : String} {f : α → α} {p : String × α} :
    ∀ {l : List (String × α)}, p ∈ amodify k f l → ∃ v, (p.1, v) ∈ l
| [], h => by simp [amodify] at h
| (k2, v2) :: t, h => by
    by_cases hk : k2 = k
    · subst hk
      simp only [amodify, eq_self_iff_true, ite_true, List.mem_cons] at h
      rcases h with h1 | h1
      · exact ⟨v2, by simp [h1]⟩
      · exact ⟨p.2, List.mem_cons_of_mem _ (by simpa using h1)⟩
    · simp only [amodify, if_neg hk, List.mem_cons] at h
      rcases h with h1 | h1
      · exact ⟨v2, by simp [h1]⟩
      · obtain ⟨v, hv⟩ := mem_amodify h1
        exact ⟨v, List.mem_cons_of_mem _ hv⟩

theorem mem_sinsert {k i : String} {l : List String} (h : i ∈ sinsert k l) :
    i = k ∨ i ∈ l := by
  unfold sinsert at h
  by_cases hs : smem k l = true
  · rw [if_pos hs] at h
    exact Or.inr h
  · rw [if_neg hs] at h
    rcases List.mem_cons.mp h with h2 | h2
    · exact Or.inl h2
    · exact Or.inr h2

theorem mem_sremove {k i : String} {l : List String} (h : i ∈ sremove k l) : i ∈ l :=
  (List.mem_filter.mp h).1

theorem mem_aerase {α : Type} {k : String} {p : String × α} {l : List (String × α)}
    (h : p ∈ aerase k l) : p ∈ l :=
  (List.mem_filter.mp h).1

theorem buildSnapshot_labelled (hasLabel : String → Bool) (inspect : String → FetchResult)
    (hins : ∀ id, FetchResult.consistent hasLabel id (inspect id)) :
    ∀ (ss : List ContainerSummary) (mon : List (String × Container)) (ign : List String)
      (m2 : ManagedContainers),
      (∀ p ∈ mon, hasLabel p.1 = true) → (∀ i ∈ ign, hasLabel i = false) →
      buildSnapshot inspect ss mon ign = some m2 → labelled hasLabel m2
| [], mon, ign, m2, hmon, hign, hb => by
    have : (⟨mon, ign⟩ : ManagedContainers) = m2 := by
      simpa [buildSnapshot] using hb
    subst this
    exact ⟨hmon, hign⟩
| s :: rest, mon, ign, m2, hmon, hign, hb => by
    cases hid : s.id with
    | none => simp [buildSnapshot, hid] at hb
    | some id =>
        cases hfr : inspect id with
        | err => simp [buildSnapshot, hid, hfr] at hb
        | found c =>
            simp only [buildSnapshot, hid, hfr] at hb
            have hlab : hasLabel id = true := by
              have := hins id
              rw [hfr] at this
              exact this
            refine buildSnapshot_labelled hasLabel inspect hins rest
              (ainsert id c mon) ign m2 ?_ hign hb
            intro p hp
            rcases mem_ainsert hp with h2 | h2
            · rw [h2]; exact hlab
            · exact hmon p h2
        | noLabel =>
            simp only [buildSnapshot, hid, hfr] at hb
            have hlab : hasLabel id = false := by
              have := hins id
              rw [hfr] at this
              exact this
            refine buildSnapshot_labelled hasLabel inspect hins rest
              mon (sinsert id ign) m2 hmon ?_ hb
            intro i hi
            rcases mem_sinsert hi with h2 | h2
            · rw [h2]; exact hlab
            · exact hign i h2

theorem labelled_step (hasLabel : String → Bool) (op : Op) (m : ManagedContainers)
    (hm : labelled hasLabel m) (hop : Op.consistent hasLabel op) :
    labelled hasLabel (step m op) := by
  cases op with
  | refresh listing inspect =>
      show labelled hasLabel (refreshAll m listing inspect).1
      cases listing with
      | none => exact hm
      | some ss =>
          cases hb : buildSnapshot inspect ss [] [] with
          | none => simpa [refreshAll, hb] using hm
          | some m2 =>
              have : (refreshAll m (some ss) inspect).1 = m2 := by simp [refreshAll, hb]
              rw [this]
              exact buildSnapshot_labelled hasLabel inspect hop ss [] [] m2
                (by intro p hp; simp at hp) (by intro i hi; simp at hi) hb
  | started id f =>
      show labelled hasLabel
        (match container_started m id f with | some r => r.1 | none => m)
      by_cases hig : smem id m.ignored_containers = true
      · simp [container_started, hig]; exact hm
      · have hig2 : smem id m.ignored_containers = false := by
          cases h : smem id m.ignored_containers with
          | false => rfl
          | true => exact absurd h hig
        cases f with
        | err => simp [container_started, hig2]; exact hm
        | found c =>
            simp only [container_started, hig2, Bool.false_eq_true, if_false]
            refine ⟨?_, hm.2⟩
            intro p hp
            rcases mem_ainsert hp with h2 | h2
            · rw [h2]; exact hop
            · exact hm.1 p h2
        | noLabel =>
            simp only [container_started, hig2, Bool.false_eq_true, if_false]
            refine ⟨hm.1, ?_⟩
            intro i hi
            rcases mem_sinsert hi with h2 | h2
            · rw [h2]; exact hop
            · exact hm.2 i h2
  | died id =>
      show labelled hasLabel (container_died m id).1
      by_cases hig : smem id m.ignored_containers = true
      · simp only [container_died, hig, if_true]
        exact ⟨hm.1, fun i hi => hm.2 i (mem_sremove hi)⟩
      · have hig2 : smem id m.ignored_containers = false := by
          cases h : smem id m.ignored_containers with
          | false => rfl
          | true => exact absurd h hig
        cases hl : alookup id m.monitored_containers with
        | none => simp only [container_died, hig2, Bool.false_eq_true, if_false, hl]; exact hm
        | some c =>
            simp only [container_died, hig2, Bool.false_eq_true, if_false, hl]
            have hgoal : labelled hasLabel
                { m with monitored_containers := aerase id m.monitored_containers } :=
              ⟨fun p hp => hm.1 p (mem_aerase hp), hm.2⟩
            by_cases hn :
                (alookup c.ping_url (get_status_map
                  { m with monitored_containers := aerase id m.monitored_containers })).isNone =
                  true
            · simpa [hn] using hgoal
            · simpa [hn] using hgoal
  | healthUpdate id h f =>
      show labelled hasLabel
        (match container_health_update m id h f with | some r => r.1 | none => m)
      by_cases hig : smem id m.ignored_containers = true
      · simp [container_health_update, hig]; exact hm
      · have hig2 : smem id m.ignored_containers = false := by
          cases hx : smem id m.ignored_containers with
          | false => rfl
          | true => exact absurd hx hig
        cases hl : alookup id m.monitored_containers with
        | some c =>
            simp only [container_health_update, hig2, Bool.false_eq_true, if_false, hl]
            refine ⟨?_, hm.2⟩
            intro p hp
            obtain ⟨v, hv⟩ := mem_amodify hp
            exact hm.1 (p.1, v) hv
        | none =>
            cases f with
            | err =>
                simp [container_health_update, hig2, hl]
                exact hm
            | found c =>
                simp only [container_health_update, hig2, Bool.false_eq_true, if_false, hl]
                refine ⟨?_, hm.2⟩
                intro p hp
                rcases mem_ainsert hp with h2 | h2
                · rw [h2]; exact hop
                · exact hm.1 p h2
            | noLabel =>
                simp only [container_health_update, hig2, Bool.false_eq_true, if_false, hl]
                refine ⟨hm.1, ?_⟩
                intro i hi
                rcases mem_sinsert hi with h2 | h2
                · rw [h2]; exact hop
                · exact hm.2 i h2

theorem runOps_labelled (hasLabel : String → Bool) :
    ∀ (ops : List Op) (m : ManagedContainers), labelled hasLabel m →
      (∀ op ∈ ops, Op.consistent hasLabel op) → labelled hasLabel (runOps m ops)
| [], m, hm, _ => hm
| op :: rest, m, hm, hcons => by
    show labelled hasLabel (runOps (step m op) rest)
    exact runOps_labelled hasLabel rest (step m op)
      (labelled_step hasLabel op m hm (hcons op (List.mem_cons_self _ _)))
      (fun op2 hop2 => hcons op2 (List.mem_cons_of_mem _ hop2))

/-- C6: starting from the empty registry, after any sequence of refresh,
start, die and health-update operations whose docker inspect answers
agree with the fixed per-container label assignment, no container id is
in both the monitored map and the ignored set. -/
theorem registry_disjoint (hasLabel : String → Bool) (ops : List Op)
    (hcons : ∀ op ∈ ops, Op.consistent hasLabel op) (id : String) :
    ¬((alookup id (runOps emptyRegistry ops).monitored_containers).isSome = true ∧
      smem id (runOps emptyRegistry ops).ignored_containers = true) := by
  have hlab : labelled hasLabel (runOps emptyRegistry ops) :=
    runOps_labelled hasLabel ops emptyRegistry
      ⟨by intro p hp; simp [emptyRegistry] at hp, by intro i hi; simp [emptyRegistry] at hi⟩
      hcons
  rintro ⟨h1, h2⟩
  obtain ⟨v, hv⟩ := Option.isSome_iff_exists.mp h1
  have ht : hasLabel id = true := hlab.1 (id, v) (alookup_mem hv)
  have hf : hasLabel id = false := hlab.2 id (smem_iff.mp h2)
  rw [ht] at hf
  exact absurd hf (by simp)

theorem registry_disjoint_witness :
    ¬((alookup "a"
        (runOps emptyRegistry [Op.started "a" (FetchResult.found ⟨"E", none⟩),
          Op.died "a"]).monitored_containers).isSome = true ∧
      smem "a" (runOps emptyRegistry [Op.started "a" (FetchResult.found ⟨"E", none⟩),
          Op.died "a"]).ignored_containers = true) := by
  refine registry_disjoint (fun _ => true)
    [Op.started "a" (FetchResult.found ⟨"E", none⟩), Op.died "a"] ?_ "a"
  intro op hop
  rcases List.mem_cons.mp hop with h | h
  · subst h; exact rfl
  · rcases List.mem_cons.mp h with h2 | h2
    · subst h2; exact trivial
    · simp at h2

theorem stripFront_append : ∀ (ps cs : List Char), stripFront ps (ps ++ cs) = some cs
| [], cs => rfl
| p :: ps, cs => by simp [stripFront, stripFront_append ps cs]

theorem stripFront_eq_some :
    ∀ {ps cs rest : List Char}, stripFront ps cs = some rest → cs = ps ++ rest
| [], cs, rest, h => by simpa [stripFront] using h
| p :: ps, [], rest, h => by simp [stripFront] at h
| p :: ps, c :: cs, rest, h => by
    by_cases hc : c = p
    · subst hc
      simp only [stripFront, eq_self_iff_true, ite_true] at h
      rw [List.cons_append]
      exact congrArg (c :: ·) (stripFront_eq_some h)
    · simp [stripFront, hc] at h

theorem stripHealthStatus_append (s : String) :
    stripHealthStatus ("health_status: " ++ s) = some s := by
  unfold stripHealthStatus
  rw [String.data_append, stripFront_append]
  simp only [Option.map_some']

theorem stripHealthStatus_eq_some {a s : String}
    (h : stripHealthStatus a = some s) : a = "health_status: " ++ s := by
  unfold stripHealthStatus at h
  cases hf : stripFront "health_status: ".data a.data with
  | none => rw [hf] at h; simp at h
  | some rest =>
      rw [hf] at h
      simp only [Option.map_some', Option.some.injEq] at h
      subst h
      apply String.ext
      rw [String.data_append]
      exact stripFront_eq_some hf

theorem healthPre_ne (s other : String) (hlen : other.length < 15) :
    "health_status: " ++ s ≠ other := by
  intro hx
  have hl := congrArg String.length hx
  rw [String.length_append] at hl
  have h15 : ("health_status: " : String).length = 15 := rfl
  rw [h15] at hl
  omega

/-- C8: every docker event is classified as the source does: a container
start event dispatches a started call, a container die event a died
call, a container health_status event with status healthy, unhealthy or
starting dispatches the matching health update, any other health_status
status string is an error with no dispatch, and every other event type
or action is ignored. -/
theorem handle_event_classification (e : EventMessage) (id : String)
    (hid : get_container_id e = Except.ok id) :
    (e.type_ = some "container" → e.action = some "start" →
      handle_event e = Except.ok (some (RegistryCall.started id))) ∧
    (e.type_ = some "container" → e.action = some "die" →
      handle_event e = Except.ok (some (RegistryCall.died id))) ∧
    (e.type_ = some "container" → e.action = some ("health_status: " ++ "healthy") →
      handle_event e = Except.ok (some (RegistryCall.healthUpdate id Health.Healthy))) ∧
    (e.type_ = some "container" → e.action = some ("health_status: " ++ "unhealthy") →
      handle_event e = Except.ok (some (RegistryCall.healthUpdate id Health.Unhealthy))) ∧
    (e.type_ = some "container" → e.action = some ("health_status: " ++ "starting") →
      handle_event e = Except.ok (some (RegistryCall.healthUpdate id Health.Starting))) ∧
    (∀ s, e.type_ = some "container" → e.action = some ("health_status: " ++ s) →
      s ≠ "healthy" → s ≠ "unhealthy" → s ≠ "starting" →
      handle_event e = Except.error
        ("container " ++ id ++ " has invalid health status: " ++ s)) ∧
    (∀ a, e.type_ = some "container" → e.action = some a →
      a ≠ "start" → a ≠ "die" → stripHealthStatus a = none →
      handle_event e = Except.ok none) ∧
    (∀ t, e.type_ = some t → t ≠ "container" → handle_event e = Except.ok none) ∧
    (e.type_ = none → handle_event e = Except.ok none) ∧
    (e.action = none → handle_event e = Except.ok none) := by
  obtain ⟨ty, ac, actor⟩ := e
  have hact : actor = some ⟨some id⟩ := by
    cases actor with
    | none => simp [get_container_id] at hid
    | some a =>
        obtain ⟨aid⟩ := a
        cases aid with
        | none => simp [get_container_id] at hid
        | some i =>
            have hi : i = id := by simpa [get_container_id] using hid
            rw [hi]
  subst hact
  refine ⟨?_, ?_, ?_, ?_, ?_, ?_, ?_, ?_, ?_, ?_⟩
  · rintro rfl rfl
    simp [handle_event, get_container_id, Except.map]
  · rintro rfl rfl
    simp [handle_event, get_container_id, Except.map]
  · rintro rfl rfl
    have hne : ("health_status: " ++ "healthy" : String) ≠ "start" := by decide
    have hne2 : ("health_status: " ++ "healthy" : String) ≠ "die" := by decide
    have hs : stripHealthStatus "health_status: healthy" = some "healthy" := by decide
    simp [handle_event, hne, hne2, hs,
      handle_container_health_status, get_container_id, Except.map]
  · rintro rfl rfl
    have hne : ("health_status: " ++ "unhealthy" : String) ≠ "start" := by decide
    have hne2 : ("health_status: " ++ "unhealthy" : String) ≠ "die" := by decide
    have hs : stripHealthStatus "health_status: unhealthy" = some "unhealthy" := by decide
    simp [handle_event, hne, hne2, hs,
      handle_container_health_status, get_container_id, Except.map]
  · rintro rfl rfl
    have hne : ("health_status: " ++ "starting" : String) ≠ "start" := by decide
    have hne2 : ("health_status: " ++ "starting" : String) ≠ "die" := by decide
    have hs : stripHealthStatus "health_status: starting" = some "starting" := by decide
    simp [handle_event, hne, hne2, hs,
      handle_container_health_status, get_container_id, Except.map]
  · rintro s rfl rfl h1 h2 h3
    have hne : ("health_status: " ++ s : String) ≠ "start" := healthPre_ne s "start" (by decide)
    have hne2 : ("health_status: " ++ s : String) ≠ "die" := healthPre_ne s "die" (by decide)
    simp [handle_event, hne, hne2, stripHealthStatus_append,
      handle_container_health_status, get_container_id, Except.map, h1, h2, h3]
  · rintro a rfl rfl h1 h2 h3
    simp [handle_event, h1, h2, h3]
  · rintro t rfl ht
    cases ac with
    | none => simp [handle_event]
    | some a => simp [handle_event, ht]
  · rintro rfl
    simp [handle_event]
  · rintro rfl
    cases ty with
    | none => simp [handle_event]
    | some t => simp [handle_event]

theorem handle_event_classification_witness :
    handle_event ⟨some "container", some "health_status: starting", some ⟨some "cid"⟩⟩ =
      Except.ok (some (RegistryCall.healthUpdate "cid" Health.Starting)) :=
  (handle_event_classification
      ⟨some "container", some "health_status: starting", some ⟨some "cid"⟩⟩ "cid"
      rfl).2.2.2.2.1 rfl (by decide)

/-- C9 counterexample: a configuration with ping timeout zero, a
non-positive duration, passes the startup checks of main.rs unchanged,
so the timeouts are not validated at startup as the claim states. -/
theorem validate_config_ignores_timeouts :
    validate_config ⟨"/var/run/docker.sock", 60, 5, 0, 600, 300, 60⟩ = true ∧
    (⟨"/var/run/docker.sock", 60, 5, 0, 600, 300, 60⟩ : Config).ping_timeout = 0 :=
  ⟨rfl, rfl⟩

/-- C9 (amended): the startup checks validate exactly the two intervals:
a configuration passes iff ping interval and fetch interval are
positive; ping timeout, fetch timeout and event timeout are not
inspected at startup. -/
theorem validate_config_spec (c : Config) :
    (validate_config c = true ↔ (0 < c.ping_interval ∧ 0 < c.fetch_interval)) ∧
    (∀ pt ft et,
      validate_config
          { c with ping_timeout := pt, fetch_timeout := ft, event_timeout := et } =
        validate_config c) := by
  constructor
  · simp only [validate_config, Bool.and_eq_true, decide_eq_true_eq]
    omega
  · intro pt ft et
    rfl

theorem validate_config_spec_witness : validate_config Config.default = true :=
  (validate_config_spec Config.default).1.mpr ⟨by decide, by decide⟩

theorem get_status_map_refines_spec_witness :
    alookup "E" (get_status_map ⟨[("a", ⟨"E", some Health.Unhealthy⟩)], []⟩) =
      specAggregatedStatus ⟨[("a", ⟨"E", some Health.Unhealthy⟩)], []⟩ "E" :=
  (get_status_map_refines_spec ⟨[("a", ⟨"E", some Health.Unhealthy⟩)], []⟩ "E").1

theorem dedup_set_tracks_last_sent_witness :
    smem "u" (runPings (Healthchecks.new 1) [("u", Health.Starting)]).1.starting = true :=
  (dedup_set_tracks_last_sent 1 [("u", Health.Starting)] "u").mpr (by decide)

end DockerHC
